import Mathlib

/-!
# Verification of the smart-finder keyword-search pipeline

Shallow embedding of `src/app.py` (single-file Streamlit application).
Python strings are modelled as `List Char`; Python dicts that are used as
insertion-ordered page mappings are modelled as association lists
`List (Nat × List Char)`.  String lowercasing is modelled at the ASCII
level with `Char.toLower`, matching the behaviour of `str.lower` on the
ASCII texts the application manipulates.
-/

namespace SmartFinder

/-- The whitespace characters removed by Python `str.strip()`:
space, tab, newline, carriage return, vertical tab, form feed. -/
def isSpace (c : Char) : Bool :=
  c == ' ' || c == '\t' || c == '\n' || c == '\r' ||
  c == Char.ofNat 11 || c == Char.ofNat 12

/-- Python `s.lower()` (ASCII model). -/
def pyLower (s : List Char) : List Char := s.map Char.toLower

/-- Python `s.strip()`: drop whitespace from both ends. -/
def pyStrip (s : List Char) : List Char :=
  ((s.dropWhile isSpace).reverse.dropWhile isSpace).reverse

/-- The character substitution performed by `snippet.replace("\n", " ")`. -/
def nlToSpace (c : Char) : Char := if c = '\n' then ' ' else c

/-- Python `s.replace("\n", " ")` (the pattern is a single character,
so the replacement is a character map). -/
def pyReplaceNl (s : List Char) : List Char := s.map nlToSpace

/-- Python slice `s[a:b]` for already-clamped indices `0 ≤ a`, `b ≤ len s`. -/
def pySlice (s : List Char) (a b : Nat) : List Char := (s.drop a).take (b - a)

/-- Python `t.find(k)`: index of the first occurrence of `k` in `t`,
`none` when absent (Python returns `-1`).  `t.find("") = 0`. -/
def substrFind (k : List Char) : List Char → Option Nat
  | [] => if k.isPrefixOf [] then some 0 else none
  | c :: t =>
    if k.isPrefixOf (c :: t) then some 0
    else (substrFind k t).map (fun i => i + 1)

/-- The local `k = keyword.lower().strip()` of `search_keyword_in_pages`
(src/app.py line 129). -/
def normKw (keyword : List Char) : List Char := pyStrip (pyLower keyword)

/-- `search_keyword_in_pages` (src/app.py lines 126-142).
`k = keyword.lower().strip()`; empty normalized keyword returns `[]`;
for each page whose lowercased text contains `k`, the first occurrence
index gives `snippet = text[max(0, start-40) : min(len(text), end+60)]`
with newlines replaced by spaces, and `(page_num, snippet)` is appended.
(On naturals, `start - 40` is exactly `max(0, start - 40)`.) -/
def search_keyword_in_pages (keyword : List Char) (pages : List (Nat × List Char)) :
    List (Nat × List Char) :=
  if normKw keyword = [] then []
  else
    pages.filterMap (fun pg =>
      match substrFind (normKw keyword) (pyLower pg.2) with
      | none => none
      | some start =>
        some (pg.1,
          pyReplaceNl (pySlice pg.2 (start - 40)
            (min pg.2.length (start + (normKw keyword).length + 60)))))

/-- A raw item of the search API's `organic_results` array: each of the
three fields may be absent from the JSON object. -/
structure RawItem where
  title : Option (List Char)
  snippet : Option (List Char)
  link : Option (List Char)
deriving DecidableEq

/-- `item.get("title", "No title")`, `item.get("snippet", "")`,
`item.get("link", "No link")` packed in the tuple order used by
`results.append((title, snippet, link))` (src/app.py lines 175-179). -/
def toResult (it : RawItem) : List Char × List Char × List Char :=
  (it.title.getD "No title".data, it.snippet.getD "".data,
   it.link.getD "No link".data)

/-- The deduplication loop of `search_internet_standard`
(src/app.py lines 184-190): the insertion-ordered dict `unique` is an
association list keyed by link; `if link and link not in unique:
unique[link] = (title, snippet, link)`. -/
def uniqueLoop :
    List (List Char × List Char × List Char) →
    List (List Char × (List Char × List Char × List Char)) →
    List (List Char × (List Char × List Char × List Char))
  | [], u => u
  | r :: rest, u =>
    if r.2.2 ≠ [] ∧ r.2.2 ∉ u.map Prod.fst then
      uniqueLoop rest (u ++ [(r.2.2, r)])
    else uniqueLoop rest u

/-- Proof-support reformulation of the dedup loop: instead of the
insertion-ordered dict it carries only the set of links seen so far. -/
def dedupAux :
    List (List Char × List Char × List Char) → List (List Char) →
    List (List Char × List Char × List Char)
  | [], _ => []
  | r :: rest, seen =>
    if r.2.2 ≠ [] ∧ r.2.2 ∉ seen then r :: dedupAux rest (r.2.2 :: seen)
    else dedupAux rest seen

/-- `search_internet_standard` (src/app.py lines 149-190), modelled from
the point where the raw items of both queries have been merged in
first-seen order: default the missing fields, run the dedup loop, return
`list(unique.values())` (dict values in insertion order). -/
def search_internet_standard (items : List RawItem) :
    List (List Char × List Char × List Char) :=
  (uniqueLoop (items.map toResult) []).map Prod.snd

/-- Decimal digits of a page number, for interpolation into an f-string. -/
def natChars (n : Nat) : List Char := (Nat.repr n).data

/-- The f-string `f"Dokumen: {uploaded_file.name}, Halaman {page_num}:
{snippet}"` (src/app.py line 313). -/
def mkContextLine (name : List Char) (pn : Nat) (snippet : List Char) :
    List Char :=
  "Dokumen: ".data ++ name ++ ", Halaman ".data ++ natChars pn ++
    ": ".data ++ snippet

/-- The document loop of the pipeline (src/app.py lines 301-317): for each
uploaded document in order, run the keyword search on its pages and append
one context line per match, in the matcher's order. -/
def context_parts (query : List Char) :
    List (List Char × List (Nat × List Char)) → List (List Char)
  | [] => []
  | d :: rest =>
    (search_keyword_in_pages query d.2).map
        (fun m => mkContextLine d.1 m.1 m.2) ++
      context_parts query rest

/-- `context = "\n".join(context_parts)` (src/app.py line 319). -/
def contextBlob (query : List Char)
    (docs : List (List Char × List (Nat × List Char))) : List Char :=
  List.intercalate ['\n'] (context_parts query docs)

/-- Spec-side definition, following the spec's words for the refinement
claim C6: lines of the form `"<document name>, page <n>: <snippet>"`,
joined in document-then-page order; documents with zero matches
contribute nothing. -/
def specContextLine (name : List Char) (pn : Nat) (snippet : List Char) :
    List Char :=
  name ++ ", page ".data ++ natChars pn ++ ": ".data ++ snippet

/-- Spec-side context blob for the refinement claim C6. -/
def specContextBlob (query : List Char)
    (docs : List (List Char × List (Nat × List Char))) : List Char :=
  List.intercalate ['\n']
    (docs.flatMap (fun d =>
      (search_keyword_in_pages query d.2).map
        (fun m => specContextLine d.1 m.1 m.2)))

/-- The JSON body returned by the Groq chat endpoint, as far as
`call_groq` inspects it: either it has an `"error"` key (whose
`"message"` sub-field may be absent), or it is well formed and carries
`choices[0].message.content`. -/
inductive RespJson
  | withError (msg : Option (List Char))
  | ok (content : List Char)
deriving DecidableEq

/-- Outcome of the network interaction of one `call_groq` invocation:
either `requests.post` / `resp.json()` / the field lookups raise an
exception with the given text, or a JSON body is obtained. -/
inductive NetOutcome
  | exn (msg : List Char)
  | json (data : RespJson)
deriving DecidableEq

/-- Message of the `RuntimeError` raised when `GROQ_API_KEY` is unset
(src/app.py line 207). -/
def groqKeyMissingMsg : List Char :=
  "GROQ_API_KEY belum diatur. Isi dulu di Secrets atau .env.".data

/-- Default Groq error message (src/app.py line 244). -/
def groqUnknownErrMsg : List Char := "Error tidak dikenal dari Groq.".data

/-- `call_groq` (src/app.py lines 204-246): raises when the key is unset
(before any HTTP call), raises on transport/parse failure, raises with
`data["error"].get("message", ...)` when the body reports an error, and
otherwise returns `data["choices"][0]["message"]["content"].strip()`.
The `Bool` component records whether `requests.post` was executed. -/
def call_groq (key : List Char) (net : NetOutcome) :
    Except (List Char) (List Char) × Bool :=
  if key = [] then (Except.error groqKeyMissingMsg, false)
  else
    match net with
    | NetOutcome.exn m => (Except.error m, true)
    | NetOutcome.json (RespJson.withError msg) =>
        (Except.error (msg.getD groqUnknownErrMsg), true)
    | NetOutcome.json (RespJson.ok content) =>
        (Except.ok (pyStrip content), true)

/-- 1 if the call reached the network, else 0. -/
def countCall (b : Bool) : Nat := if b then 1 else 0

/-- `query_openai` (src/app.py lines 249-263): try the primary model;
on any exception try the fallback model; if that also raises, return
`f"Model fallback juga gagal: {e2}"`.  The `Nat` component counts the
outbound HTTP calls performed. -/
def query_openai (key : List Char) (primary fallback : NetOutcome) :
    List Char × Nat :=
  match call_groq key primary with
  | (Except.ok a, b) => (a, countCall b)
  | (Except.error _, b1) =>
    match call_groq key fallback with
    | (Except.ok a, b2) => (a, countCall b1 + countCall b2)
    | (Except.error e2, b2) =>
        ("Model fallback juga gagal: ".data ++ e2,
         countCall b1 + countCall b2)

/-- The per-page loop of `extract_text_from_scanned_pdf`
(src/app.py lines 95-102), pages numbered from `i`.  Each rasterized
page's OCR call either raises (`Except.error`, which propagates out of
the function since the loop has no handler) or returns a possibly-`None`
string; `result[i] = text or ""` turns `None` (and `""`) into `""`. -/
def scannedPdfLoop (i : Nat) :
    List (Except (List Char) (Option (List Char))) →
    Except (List Char) (List (Nat × List Char))
  | [] => Except.ok []
  | o :: rest =>
    match o with
    | Except.error e => Except.error e
    | Except.ok t =>
      match scannedPdfLoop (i + 1) rest with
      | Except.error e => Except.error e
      | Except.ok r => Except.ok ((i, t.getD []) :: r)

/-- `extract_text_from_scanned_pdf` (src/app.py lines 88-102), modelled
over the list of per-page OCR outcomes for the rasterized pages,
numbered from 1. -/
def extract_text_from_scanned_pdf
    (ocr : List (Except (List Char) (Option (List Char)))) :
    Except (List Char) (List (Nat × List Char)) :=
  scannedPdfLoop 1 ocr

example : substrFind "ab".data "xxabab".data = some 2 := by decide
example : substrFind "ab".data "xxa".data = none := by decide
example : search_keyword_in_pages " B ".data [(1, "xAbY".data)] =
    [(1, "xAbY".data)] := by decide
example : search_keyword_in_pages "  ".data [(1, "x".data)] = [] := by decide
example : search_internet_standard
    [⟨none, none, none⟩, ⟨some "t".data, none, some "l".data⟩,
     ⟨some "u".data, none, some "l".data⟩, ⟨some "v".data, none, some "".data⟩] =
    [("No title".data, [], "No link".data), ("t".data, [], "l".data)] := by
  decide

/-! ## Helper lemmas -/

theorem substrFind_eq_some {k t : List Char} {i : Nat}
    (h : substrFind k t = some i) :
    k <+: t.drop i ∧ ∀ j < i, ¬ k <+: t.drop j := by
  induction t generalizing i with
  | nil =>
    by_cases hp : k.isPrefixOf ([] : List Char)
    · rw [substrFind, if_pos hp] at h
      injection h with h
      subst h
      exact ⟨List.isPrefixOf_iff_prefix.mp hp,
        fun j hj => absurd hj (Nat.not_lt_zero j)⟩
    · rw [substrFind, if_neg hp] at h
      cases h
  | cons c t ih =>
    by_cases hp : k.isPrefixOf (c :: t)
    · rw [substrFind, if_pos hp] at h
      injection h with h
      subst h
      exact ⟨List.isPrefixOf_iff_prefix.mp hp,
        fun j hj => absurd hj (Nat.not_lt_zero j)⟩
    · rw [substrFind, if_neg hp] at h
      rcases Option.map_eq_some'.mp h with ⟨i0, hfind, hi⟩
      subst hi
      obtain ⟨h1, h2⟩ := ih hfind
      refine ⟨by simpa using h1, ?_⟩
      intro j hj
      match j with
      | 0 =>
        simpa using fun hc => hp (List.isPrefixOf_iff_prefix.mpr hc)
      | j + 1 =>
        simpa using h2 j (by omega)

theorem pyStrip_length_le (s : List Char) : (pyStrip s).length ≤ s.length := by
  unfold pyStrip
  calc ((s.dropWhile isSpace).reverse.dropWhile isSpace).reverse.length
      = ((s.dropWhile isSpace).reverse.dropWhile isSpace).length := by
        simp
    _ ≤ (s.dropWhile isSpace).reverse.length :=
        (List.dropWhile_sublist _).length_le
    _ = (s.dropWhile isSpace).length := by simp
    _ ≤ s.length := (List.dropWhile_sublist _).length_le

theorem normKw_length_le (k : List Char) : (normKw k).length ≤ k.length := by
  have := pyStrip_length_le (pyLower k)
  simpa [normKw, pyLower] using this

theorem nlToSpace_ne_nl (c : Char) : nlToSpace c ≠ '\n' := by
  unfold nlToSpace
  split
  · decide
  · assumption

theorem toLower_of_isSpace {c : Char} (h : isSpace c = true) :
    Char.toLower c = c := by
  simp only [isSpace, Bool.or_eq_true, beq_iff_eq] at h
  rcases h with ((((rfl | rfl) | rfl) | rfl) | rfl) | rfl <;> decide

theorem normKw_eq_nil_of_space {k : List Char}
    (h : ∀ c ∈ k, isSpace c = true) : normKw k = [] := by
  have hall : ∀ c ∈ pyLower k, isSpace c = true := by
    intro c hc
    rcases List.mem_map.mp hc with ⟨c0, hc0, rfl⟩
    rw [toLower_of_isSpace (h c0 hc0)]
    exact h c0 hc0
  unfold normKw pyStrip
  rw [List.dropWhile_eq_nil_iff.mpr hall]
  simp

/-! ## Claims about the Keyword Matcher -/

/-- C1: if the normalized (lowercased, stripped) keyword is non-empty and
first occurs at index `start` of the lowercased page text, then the match
returned for that page carries the snippet
`text[max(0, start-40) : min(len(text), start + len(k) + 60)]` with
newlines replaced by spaces. -/
theorem search_first_occurrence_snippet (k : List Char)
    (pages : List (Nat × List Char)) (pn : Nat) (text : List Char)
    (start : Nat) (hmem : (pn, text) ∈ pages)
    (hk : normKw k ≠ [])
    (hfind : substrFind (normKw k) (pyLower text) = some start) :
    (pn, pyReplaceNl (pySlice text (max 0 (start - 40))
        (min text.length (start + (normKw k).length + 60)))) ∈
      search_keyword_in_pages k pages := by
  unfold search_keyword_in_pages
  rw [if_neg hk]
  refine List.mem_filterMap.mpr ⟨(pn, text), hmem, ?_⟩
  simp [hfind, Nat.zero_max]

/-- Witness for C1 at a concrete input. -/
theorem search_first_occurrence_snippet_w :
    ((1, "za".data) ∈ [((1 : Nat), "za".data)]) ∧
    normKw "A".data ≠ [] ∧
    substrFind (normKw "A".data) (pyLower "za".data) = some 1 ∧
    ((1, pyReplaceNl (pySlice "za".data (max 0 (1 - 40))
        (min "za".data.length (1 + (normKw "A".data).length + 60)))) ∈
      search_keyword_in_pages "A".data [((1 : Nat), "za".data)]) :=
  ⟨by decide, by decide, by decide,
    search_first_occurrence_snippet _ _ _ _ _ (by decide) (by decide)
      (by decide)⟩

/-- C2: every returned snippet is newline-free, at most
`100 + len(keyword)` characters long, and is the newline-replacement of a
contiguous substring of the page's text (so the slice never indexes
outside the text). -/
theorem search_snippet_invariant (k : List Char)
    (pages : List (Nat × List Char)) (pn : Nat) (s : List Char)
    (h : (pn, s) ∈ search_keyword_in_pages k pages) :
    (∀ c ∈ s, c ≠ '\n') ∧ s.length ≤ 100 + k.length ∧
      ∃ text, (pn, text) ∈ pages ∧ ∃ u, u <:+: text ∧ s = pyReplaceNl u := by
  unfold search_keyword_in_pages at h
  by_cases hk : normKw k = []
  · rw [if_pos hk] at h
    cases h
  · rw [if_neg hk] at h
    rcases List.mem_filterMap.mp h with ⟨⟨pn0, text⟩, hmem, heq⟩
    rcases hfind : substrFind (normKw k) (pyLower text) with _ | start
    · simp [hfind] at heq
    · simp only [hfind, Option.some.injEq, Prod.mk.injEq] at heq
      obtain ⟨rfl, rfl⟩ := heq
      refine ⟨?_, ?_, text, hmem, _, ?_, rfl⟩
      · intro c hc
        rcases List.mem_map.mp hc with ⟨c0, _, rfl⟩
        exact nlToSpace_ne_nl c0
      · have hb : min text.length (start + (normKw k).length + 60) ≤
            start + (normKw k).length + 60 := min_le_right _ _
        have hlen : (normKw k).length ≤ k.length := normKw_length_le k
        simp only [pyReplaceNl, pySlice, List.length_map, List.length_take,
          List.length_drop]
        omega
      · exact ((List.take_prefix _ _).isInfix).trans
          ((List.drop_suffix _ _).isInfix)

/-- Witness for C2 at a concrete input. -/
theorem search_snippet_invariant_w :
    ((1, "a".data) ∈ search_keyword_in_pages "a".data [((1 : Nat), "a".data)]) ∧
    ((∀ c ∈ "a".data, c ≠ '\n') ∧ "a".data.length ≤ 100 + "a".data.length ∧
      ∃ text, ((1 : Nat), text) ∈ [((1 : Nat), "a".data)] ∧
        ∃ u, u <:+: text ∧ "a".data = pyReplaceNl u) :=
  ⟨by decide, search_snippet_invariant _ _ _ _ (by decide)⟩

/-- `filterMap` by a key-preserving function keeps the key list a
sublist of the original. -/
theorem filterMap_fst_sublist
    (f : Nat × List Char → Option (Nat × List Char))
    (hf : ∀ pg r, f pg = some r → r.1 = pg.1)
    (pages : List (Nat × List Char)) :
    List.Sublist ((pages.filterMap f).map Prod.fst) (pages.map Prod.fst) := by
  induction pages with
  | nil => simp
  | cons pg rest ih =>
    rw [List.filterMap_cons]
    rcases hfa : f pg with _ | r
    · exact ih.trans (List.sublist_cons_self _ _)
    · simp only [List.map_cons]
      rw [hf pg r hfa]
      exact ih.cons₂ _

/-- C3: on a page mapping with distinct page keys the matcher returns at
most one match per page key, and every returned match is built from the
first occurrence of the normalized keyword on its page (no earlier index
carries an occurrence). -/
theorem search_at_most_one_per_page (k : List Char)
    (pages : List (Nat × List Char))
    (hn : (pages.map Prod.fst).Nodup) :
    ((search_keyword_in_pages k pages).map Prod.fst).Nodup ∧
    ∀ pn s, (pn, s) ∈ search_keyword_in_pages k pages →
      ∃ text start, (pn, text) ∈ pages ∧
        substrFind (normKw k) (pyLower text) = some start ∧
        (normKw k) <+: (pyLower text).drop start ∧
        (∀ j < start, ¬ (normKw k) <+: (pyLower text).drop j) ∧
        s = pyReplaceNl (pySlice text (start - 40)
              (min text.length (start + (normKw k).length + 60))) := by
  constructor
  · have hsub : List.Sublist
        ((search_keyword_in_pages k pages).map Prod.fst)
        (pages.map Prod.fst) := by
      unfold search_keyword_in_pages
      split
      · simp
      · apply filterMap_fst_sublist
        intro pg r h
        rcases hf : substrFind (normKw k) (pyLower pg.2) with _ | start
        · simp [hf] at h
        · simp only [hf, Option.some.injEq] at h
          subst h
          rfl
    exact hn.sublist hsub
  · intro pn s h
    unfold search_keyword_in_pages at h
    by_cases hk : normKw k = []
    · rw [if_pos hk] at h
      cases h
    · rw [if_neg hk] at h
      rcases List.mem_filterMap.mp h with ⟨⟨pn0, text⟩, hmem, heq⟩
      rcases hfind : substrFind (normKw k) (pyLower text) with _ | start
      · simp [hfind] at heq
      · simp only [hfind, Option.some.injEq, Prod.mk.injEq] at heq
        obtain ⟨rfl, rfl⟩ := heq
        obtain ⟨h1, h2⟩ := substrFind_eq_some hfind
        exact ⟨text, start, hmem, hfind, h1, h2, rfl⟩

/-- Witness for C3 at a concrete input. -/
theorem search_at_most_one_per_page_w :
    ([((1 : Nat), "abb".data)].map Prod.fst).Nodup ∧
    (((search_keyword_in_pages "b".data
        [((1 : Nat), "abb".data)]).map Prod.fst).Nodup ∧
     ∀ pn s, (pn, s) ∈ search_keyword_in_pages "b".data
         [((1 : Nat), "abb".data)] →
       ∃ text start, (pn, text) ∈ [((1 : Nat), "abb".data)] ∧
         substrFind (normKw "b".data) (pyLower text) = some start ∧
         (normKw "b".data) <+: (pyLower text).drop start ∧
         (∀ j < start, ¬ (normKw "b".data) <+: (pyLower text).drop j) ∧
         s = pyReplaceNl (pySlice text (start - 40)
               (min text.length (start + (normKw "b".data).length + 60)))) :=
  ⟨by decide, search_at_most_one_per_page _ _ (by decide)⟩

/-- C4: a keyword consisting only of whitespace (or empty) yields an
empty result on every page mapping. -/
theorem search_whitespace_keyword_empty (k : List Char)
    (h : ∀ c ∈ k, isSpace c = true)
    (pages : List (Nat × List Char)) :
    search_keyword_in_pages k pages = [] := by
  unfold search_keyword_in_pages
  rw [if_pos (normKw_eq_nil_of_space h)]

/-- Witness for C4 at a concrete input. -/
theorem search_whitespace_keyword_empty_w :
    (∀ c ∈ "  ".data, isSpace c = true) ∧
      search_keyword_in_pages "  ".data [((1 : Nat), " x ".data)] = [] :=
  ⟨by decide, search_whitespace_keyword_empty _ (by decide) _⟩

/-- C10: the matcher is invariant under keyword normalization: two
keywords with the same `lower().strip()` form give identical results on
every page mapping. -/
theorem search_norm_invariant (k kp : List Char)
    (h : normKw k = normKw kp) (pages : List (Nat × List Char)) :
    search_keyword_in_pages k pages = search_keyword_in_pages kp pages := by
  unfold search_keyword_in_pages
  rw [h]

/-- Witness for C10 at a concrete input. -/
theorem search_norm_invariant_w :
    normKw " A ".data = normKw "a".data ∧
      search_keyword_in_pages " A ".data [((1 : Nat), "ab".data)] =
        search_keyword_in_pages "a".data [((1 : Nat), "ab".data)] :=
  ⟨by decide, search_norm_invariant _ _ (by decide) _⟩

/-! ## Claims about the External Search Adapter -/

theorem dedupAux_seen_congr (rs : List (List Char × List Char × List Char)) :
    ∀ s1 s2, (∀ x, x ∈ s1 ↔ x ∈ s2) → dedupAux rs s1 = dedupAux rs s2 := by
  induction rs with
  | nil => intro s1 s2 _; rfl
  | cons r rest ih =>
    intro s1 s2 h
    rw [dedupAux, dedupAux]
    by_cases hc : r.2.2 ≠ [] ∧ r.2.2 ∉ s1
    · have hc2 : r.2.2 ≠ [] ∧ r.2.2 ∉ s2 :=
        ⟨hc.1, fun hm => hc.2 ((h _).mpr hm)⟩
      rw [if_pos hc, if_pos hc2]
      exact congrArg (List.cons r)
        (ih (r.2.2 :: s1) (r.2.2 :: s2) (fun x => by simp [h x]))
    · have hc2 : ¬(r.2.2 ≠ [] ∧ r.2.2 ∉ s2) := by
        intro h2
        exact hc ⟨h2.1, fun hm => h2.2 ((h _).mp hm)⟩
      rw [if_neg hc, if_neg hc2]
      exact ih _ _ h

theorem dedupAux_mem_prop (rs : List (List Char × List Char × List Char)) :
    ∀ seen, ∀ e ∈ dedupAux rs seen, e.2.2 ≠ [] ∧ e.2.2 ∉ seen := by
  induction rs with
  | nil =>
    intro seen e he
    simp [dedupAux] at he
  | cons r rest ih =>
    intro seen e he
    rw [dedupAux] at he
    by_cases hc : r.2.2 ≠ [] ∧ r.2.2 ∉ seen
    · rw [if_pos hc] at he
      rcases List.mem_cons.mp he with rfl | he2
      · exact hc
      · have hp := ih _ e he2
        exact ⟨hp.1, fun hm => hp.2 (List.mem_cons_of_mem _ hm)⟩
    · rw [if_neg hc] at he
      exact ih _ e he

theorem dedupAux_links_nodup (rs : List (List Char × List Char × List Char)) :
    ∀ seen, ((dedupAux rs seen).map (fun e => e.2.2)).Nodup := by
  induction rs with
  | nil => intro seen; simp [dedupAux]
  | cons r rest ih =>
    intro seen
    rw [dedupAux]
    by_cases hc : r.2.2 ≠ [] ∧ r.2.2 ∉ seen
    · rw [if_pos hc]
      refine List.nodup_cons.mpr ⟨?_, ih _⟩
      intro hm
      rcases List.mem_map.mp hm with ⟨e, he, heq⟩
      exact (dedupAux_mem_prop rest _ e he).2 (heq ▸ List.mem_cons_self _ _)
    · rw [if_neg hc]
      exact ih _

theorem dedupAux_link_mem (rs : List (List Char × List Char × List Char)) :
    ∀ seen l, l ≠ [] → l ∉ seen →
      (l ∈ rs.map (fun e => e.2.2) ↔
        l ∈ (dedupAux rs seen).map (fun e => e.2.2)) := by
  induction rs with
  | nil => intro seen l _ _; simp [dedupAux]
  | cons r rest ih =>
    intro seen l hne hns
    rw [dedupAux]
    by_cases hc : r.2.2 ≠ [] ∧ r.2.2 ∉ seen
    · rw [if_pos hc]
      simp only [List.map_cons, List.mem_cons]
      constructor
      · rintro (heq | hmem)
        · exact Or.inl heq
        · by_cases hl : l = r.2.2
          · exact Or.inl hl
          · exact Or.inr ((ih (r.2.2 :: seen) l hne
              (by simp [hns, hl])).mp hmem)
      · rintro (heq | hmem)
        · exact Or.inl heq
        · rcases List.mem_map.mp hmem with ⟨e, he, heq⟩
          have hp := dedupAux_mem_prop rest _ e he
          exact Or.inr ((ih (r.2.2 :: seen) l hne (heq ▸ hp.2)).mpr hmem)
    · rw [if_neg hc]
      simp only [List.map_cons, List.mem_cons]
      constructor
      · rintro (heq | hmem)
        · exfalso
          rcases not_and_or.mp hc with h1 | h1
          · exact hne (heq.trans (not_not.mp h1))
          · exact hns (heq ▸ not_not.mp h1)
        · exact (ih seen l hne hns).mp hmem
      · intro hmem
        exact Or.inr ((ih seen l hne hns).mpr hmem)

theorem dedupAux_first_encountered
    (rs : List (List Char × List Char × List Char)) :
    ∀ seen e, e ∈ dedupAux rs seen →
      rs.find? (fun r => r.2.2 == e.2.2) = some e := by
  induction rs with
  | nil =>
    intro seen e he
    simp [dedupAux] at he
  | cons r rest ih =>
    intro seen e he
    rw [dedupAux] at he
    by_cases hc : r.2.2 ≠ [] ∧ r.2.2 ∉ seen
    · rw [if_pos hc] at he
      rcases List.mem_cons.mp he with rfl | he2
      · exact List.find?_cons_of_pos _ (by simp)
      · have hp := dedupAux_mem_prop rest _ e he2
        have hne : r.2.2 ≠ e.2.2 := by
          intro hq
          exact hp.2 (hq ▸ List.mem_cons_self _ _)
        rw [List.find?_cons_of_neg _ (by simp [hne])]
        exact ih _ e he2
    · rw [if_neg hc] at he
      have hp := dedupAux_mem_prop rest seen e he
      have hne : r.2.2 ≠ e.2.2 := by
        intro hq
        rcases not_and_or.mp hc with h1 | h1
        · exact hp.1 (hq.symm.trans (not_not.mp h1))
        · exact hp.2 (hq ▸ not_not.mp h1)
      rw [List.find?_cons_of_neg _ (by simp [hne])]
      exact ih seen e he

theorem uniqueLoop_map_snd (rs : List (List Char × List Char × List Char)) :
    ∀ u, (uniqueLoop rs u).map Prod.snd =
      u.map Prod.snd ++ dedupAux rs (u.map Prod.fst) := by
  induction rs with
  | nil => intro u; simp [uniqueLoop, dedupAux]
  | cons r rest ih =>
    intro u
    rw [uniqueLoop, dedupAux]
    by_cases hc : r.2.2 ≠ [] ∧ r.2.2 ∉ u.map Prod.fst
    · rw [if_pos hc, if_pos hc, ih (u ++ [(r.2.2, r)])]
      have hseen : dedupAux rest ((u ++ [(r.2.2, r)]).map Prod.fst) =
          dedupAux rest (r.2.2 :: u.map Prod.fst) :=
        dedupAux_seen_congr rest _ _
          (fun x => by simp [List.mem_append, or_comm])
      rw [hseen]
      simp [List.map_append]
    · rw [if_neg hc, if_neg hc]
      exact ih u

/-- C5 counterexample: a raw item with a missing `link` field is not
dropped — `item.get("link", "No link")` defaults it to the non-empty
string `"No link"`, which passes the `if link` truthiness test, so the
entry survives into the output. -/
theorem search_internet_missing_link_kept :
    search_internet_standard [⟨none, none, none⟩] =
        [("No title".data, "".data, "No link".data)] ∧
      search_internet_standard [⟨none, none, none⟩] ≠ [] := by
  constructor
  · decide
  · decide

/-- C5 amended: the output has exactly one entry per distinct non-empty
link of the merged (field-defaulted) result list, that entry is the
first-encountered one with its link, and entries with an empty link are
dropped; entries with a missing link are defaulted to the non-empty
placeholder link `"No link"` (so they are kept and deduplicated under
that placeholder) rather than dropped. -/
theorem search_internet_dedup (items : List RawItem) :
    (∀ e ∈ search_internet_standard items, e.2.2 ≠ []) ∧
    ((search_internet_standard items).map (fun e => e.2.2)).Nodup ∧
    (∀ l, l ≠ [] →
      (l ∈ (items.map toResult).map (fun e => e.2.2) ↔
        l ∈ (search_internet_standard items).map (fun e => e.2.2))) ∧
    (∀ e ∈ search_internet_standard items,
      (items.map toResult).find? (fun r => r.2.2 == e.2.2) = some e) := by
  have hout : search_internet_standard items =
      dedupAux (items.map toResult) [] := by
    unfold search_internet_standard
    rw [uniqueLoop_map_snd]
    simp
  rw [hout]
  exact ⟨fun e he => (dedupAux_mem_prop _ _ e he).1,
    dedupAux_links_nodup _ _,
    fun l hl => dedupAux_link_mem _ _ l hl (List.not_mem_nil l),
    fun e he => dedupAux_first_encountered _ _ e he⟩

/-- Witness for the amended C5 at a concrete input: two raw items share
the link `l`; the first one is kept and is the `find?`-first entry. -/
theorem search_internet_dedup_w :
    (("t".data, "".data, "l".data) ∈ search_internet_standard
        [⟨some "t".data, none, some "l".data⟩,
         ⟨some "u".data, none, some "l".data⟩]) ∧
    (([(⟨some "t".data, none, some "l".data⟩ : RawItem),
        ⟨some "u".data, none, some "l".data⟩].map toResult).find?
          (fun r => r.2.2 == ("t".data, "".data, "l".data).2.2) =
      some ("t".data, "".data, "l".data)) :=
  ⟨by decide,
    (search_internet_dedup
        [⟨some "t".data, none, some "l".data⟩,
         ⟨some "u".data, none, some "l".data⟩]).2.2.2
      ("t".data, "".data, "l".data) (by decide)⟩

/-! ## Claims about the Context Assembler -/

theorem context_parts_eq_flatMap (query : List Char)
    (docs : List (List Char × List (Nat × List Char))) :
    context_parts query docs = docs.flatMap (fun d =>
      (search_keyword_in_pages query d.2).map
        (fun m => mkContextLine d.1 m.1 m.2)) := by
  induction docs with
  | nil => rfl
  | cons d rest ih =>
    rw [context_parts, List.flatMap_cons, ih]

/-- C6 counterexample: the pipeline's context lines are of the form
`"Dokumen: <name>, Halaman <n>: <snippet>"` (src/app.py line 313), not of
the spec's form `"<name>, page <n>: <snippet>"`; the two blobs differ on
a document named `a` whose page 1 text is the keyword `x`. -/
theorem contextBlob_ne_specContextBlob :
    contextBlob "x".data [("a".data, [(1, "x".data)])] ≠
      specContextBlob "x".data [("a".data, [(1, "x".data)])] := by
  decide

/-- C6 amended: the assembled context blob is the newline-join of one
line per match, each line the f-string
`"Dokumen: <document name>, Halaman <n>: <snippet>"`, where documents
with zero matches contribute no lines, documents appear in upload order,
and within a document matches appear in the matcher's output order (the
flatMap over documents of the mapped match lists). -/
theorem contextBlob_structure (query : List Char)
    (docs : List (List Char × List (Nat × List Char))) :
    contextBlob query docs = List.intercalate ['\n']
      (docs.flatMap (fun d =>
        (search_keyword_in_pages query d.2).map
          (fun m => mkContextLine d.1 m.1 m.2))) := by
  rw [contextBlob, context_parts_eq_flatMap]

/-! ## Claims about the Answer Adapter -/

theorem query_openai_eval (key : List Char) (p f : NetOutcome) :
    (query_openai key p f).1 =
      match (call_groq key p).1 with
      | Except.ok a => a
      | Except.error _ =>
        match (call_groq key f).1 with
        | Except.ok a => a
        | Except.error e2 => "Model fallback juga gagal: ".data ++ e2 := by
  unfold query_openai
  generalize call_groq key p = cp
  obtain ⟨rp, bp⟩ := cp
  cases rp with
  | error e =>
    generalize call_groq key f = cf
    obtain ⟨rf, bf⟩ := cf
    cases rf <;> rfl
  | ok a => rfl

/-- C7: `query_openai` attempts the primary model; when that call raises
(for any reason — transport error, API-reported error, malformed body) it
retries exactly once with the fallback model and returns its output; when
both calls raise it returns the error-describing string
`"Model fallback juga gagal: <e2>"`.  The function is total on all
modelled outcomes, i.e. it never propagates an exception. -/
theorem query_openai_fallback_policy (key : List Char) (p f : NetOutcome) :
    (∀ a, (call_groq key p).1 = Except.ok a →
      (query_openai key p f).1 = a) ∧
    (∀ e a, (call_groq key p).1 = Except.error e →
      (call_groq key f).1 = Except.ok a → (query_openai key p f).1 = a) ∧
    (∀ e e2, (call_groq key p).1 = Except.error e →
      (call_groq key f).1 = Except.error e2 →
      (query_openai key p f).1 = "Model fallback juga gagal: ".data ++ e2) := by
  refine ⟨?_, ?_, ?_⟩
  · intro a ha
    rw [query_openai_eval, ha]
  · intro e a he ha
    rw [query_openai_eval, he, ha]
  · intro e e2 he he2
    rw [query_openai_eval, he, he2]

/-- Witness for C7 at a concrete input: the primary call raises, the
fallback call succeeds, and `query_openai` returns the fallback model's
(stripped) output. -/
theorem query_openai_fallback_policy_w :
    (call_groq "k".data (NetOutcome.exn "boom".data)).1 =
        Except.error "boom".data ∧
    (call_groq "k".data (NetOutcome.json (RespJson.ok " hi ".data))).1 =
        Except.ok "hi".data ∧
    (query_openai "k".data (NetOutcome.exn "boom".data)
        (NetOutcome.json (RespJson.ok " hi ".data))).1 = "hi".data :=
  ⟨rfl, rfl,
    (query_openai_fallback_policy "k".data (NetOutcome.exn "boom".data)
        (NetOutcome.json (RespJson.ok " hi ".data))).2.1
      "boom".data "hi".data rfl rfl⟩

/-- C8: with no API credential configured, `call_groq` raises before ever
reaching `requests.post`, for both the primary and the fallback attempt;
`query_openai` therefore performs zero outbound HTTP calls and returns
the fixed notice `"Model fallback juga gagal: GROQ_API_KEY belum diatur.
Isi dulu di Secrets atau .env."`, independent of the network oracles. -/
theorem query_openai_no_key (p f : NetOutcome) :
    query_openai [] p f =
      ("Model fallback juga gagal: ".data ++ groqKeyMissingMsg, 0) := rfl

/-! ## Claims about the OCR fallback -/

theorem scannedPdfLoop_ok (ts : List (Option (List Char))) :
    ∀ i, ∃ l, scannedPdfLoop i (ts.map Except.ok) = Except.ok l ∧
      l.length = ts.length ∧
      ∀ j, l.get? j = (ts.get? j).map (fun t => (i + j, t.getD [])) := by
  induction ts with
  | nil => exact fun i => ⟨[], rfl, rfl, fun j => rfl⟩
  | cons t rest ih =>
    intro i
    obtain ⟨l, hl, hlen, hget⟩ := ih (i + 1)
    refine ⟨(i, t.getD []) :: l, ?_, by simp [hlen], ?_⟩
    · simp [scannedPdfLoop, hl]
    · intro j
      cases j with
      | zero => simp
      | succ jp =>
        rw [List.get?_cons_succ, List.get?_cons_succ, hget jp]
        have h : i + 1 + jp = i + (jp + 1) := by omega
        rw [h]

/-- C9 counterexample: the per-page OCR loop of
`extract_text_from_scanned_pdf` has no exception handler, so a page
whose OCR call raises makes the whole function raise instead of
contributing an empty string: no page list is returned. -/
theorem scanned_pdf_raises_on_ocr_exn :
    extract_text_from_scanned_pdf [Except.error "tesseract error".data] =
        Except.error "tesseract error".data ∧
      (extract_text_from_scanned_pdf
        [Except.error "tesseract error".data]).isOk = false :=
  ⟨rfl, rfl⟩

/-- C9 amended: whenever no per-page OCR call raises,
`extract_text_from_scanned_pdf` returns one text block per rasterized
page, in page order numbered from 1, and a page whose OCR call returns
`None` (or an empty string) contributes the empty string for that page
only; a raising OCR call instead propagates out of the function. -/
theorem scanned_pdf_one_block_per_page (ts : List (Option (List Char))) :
    ∃ l, extract_text_from_scanned_pdf (ts.map Except.ok) = Except.ok l ∧
      l.length = ts.length ∧
      ∀ j, l.get? j = (ts.get? j).map (fun t => (j + 1, t.getD [])) := by
  obtain ⟨l, hl, hlen, hget⟩ := scannedPdfLoop_ok ts 1
  refine ⟨l, hl, hlen, fun j => ?_⟩
  simpa [Nat.add_comm] using hget j

end SmartFinder
